import Mathlib

/-!
Verification of the signal-handling / crash-diagnostics / secure-random core
of `loolwsd` (`src/loolwsd/Util.cpp`), via a shallow embedding in Lean 4.

Modelling conventions:
* Machine integers become `Nat`/`Int`; bytes are `Nat` values reduced `% 256`
  where the bit pattern matters.
* The OS entropy device (`Poco::RandomBuf`) is modelled as an input stream,
  a `List Nat` of bytes handed to the functions that read from it.
* Signal numbers follow the Linux x86-64 ABI (SIGHUP = 1 … SIGSYS = 31),
  the platform the source targets (it includes `sys/prctl.h`, `execinfo.h`).
* Signal handlers are embedded as functions from their inputs to a trace of
  the externally visible events (log writes, sigaction calls, writev, kill),
  in the order the C++ code performs them.
-/

namespace Util

namespace rng

/-- The 64-character Base64 alphabet used by `Poco::Base64Encoder`
(RFC 4648 standard alphabet: `A`–`Z`, `a`–`z`, `0`–`9`, `+`, `/`). -/
def b64Alphabet : List Char :=
  ['A','B','C','D','E','F','G','H','I','J','K','L','M',
   'N','O','P','Q','R','S','T','U','V','W','X','Y','Z',
   'a','b','c','d','e','f','g','h','i','j','k','l','m',
   'n','o','p','q','r','s','t','u','v','w','x','y','z',
   '0','1','2','3','4','5','6','7','8','9','+','/']

/-- Base64 digit for a 6-bit value. -/
def b64Char (i : Nat) : Char := b64Alphabet.getD i 'A'

/-- `Poco::Base64Encoder` consumes input bytes in groups of three, emitting
four alphabet characters per complete group.  The encoder in
`Util::rng::getB64String` is never closed before the stream contents are
taken, so a trailing partial group is never flushed: it produces no output.
This function is that un-closed encoding. -/
def b64EncodeGroups : List Nat → List Char
  | b0 :: b1 :: b2 :: rest =>
    let n := b0 % 256 * 65536 + b1 % 256 * 256 + b2 % 256
    b64Char (n / 262144) :: b64Char (n / 4096 % 64) ::
      b64Char (n / 64 % 64) :: b64Char (n % 64) :: b64EncodeGroups rest
  | _ => []

/-- Helper for `wrap72`: emits characters one by one, tracking the position
on the current output line; once 72 characters have been emitted on a line,
a CRLF is written before the next character. -/
def wrap72Go : List Char → Nat → List Char
  | [], _ => []
  | c :: cs, pos =>
    if pos = 72 then '\r' :: '\n' :: c :: wrap72Go cs 1
    else c :: wrap72Go cs (pos + 1)

/-- `Poco::Base64Encoder` wraps its output: after each 72 encoded characters
it inserts a CRLF line break before the next one (default `lineLength` 72). -/
def wrap72 (cs : List Char) : List Char := wrap72Go cs 0

/-- `Util::rng::getBytes(length)`: reads `length` bytes from the entropy
device (`_randBuf.readFromDevice`).  The device is modelled as the input
byte stream `entropy`. -/
def getBytes (entropy : List Nat) (length : Nat) : List Nat :=
  entropy.take length

/-- `Util::rng::getB64String(length)`: streams `getBytes(length).data()`
— a pointer treated as a C string, so consumption stops at the first zero
byte — through a `Poco::Base64Encoder` into a stringstream, and returns
`ss.str().substr(0, length)` (`substr` truncates to at most `length`
characters; it cannot pad a shorter string). -/
def getB64String (entropy : List Nat) (length : Nat) : List Char :=
  (wrap72 (b64EncodeGroups ((getBytes entropy length).takeWhile (· != 0)))).take length

/-- `Util::rng::getFilename(length)`: takes `getB64String(length)`, replaces
every `/` with `_` (`std::replace`), and returns `substr(0, length)`. -/
def getFilename (entropy : List Nat) (length : Nat) : List Char :=
  (((getB64String entropy length).map (fun c => if c = '/' then '_' else c))).take length

end rng

/-- `Util::createRandomDir`'s directory token: the name it creates and
returns is `rng::getFilename(64)`. -/
def createRandomDirName (entropy : List Nat) : List Char :=
  rng.getFilename entropy 64

end Util

namespace Util

/-- `Util::signalName(signo)`: a `switch` over signal numbers returning the
canonical `"SIG…"` name, `"unknown"` for any number without a case.  Signal
numbers are the Linux x86-64 values; on that platform `SIGPOLL` is defined
(so the `POLL` case is live), `SIGIO == SIGPOLL` and `SIGINFO == SIGPWR`
(so the `IO` and `INFO` cases are preprocessed away), and `SIGEMT` and
`SIGLOST` do not exist (those cases are preprocessed away); `SIGSTKFLT` and
`SIGPWR` exist.  The cases appear in the source's `switch` order. -/
def signalName (signo : Int) : String :=
  if signo = 1 then "SIGHUP"
  else if signo = 2 then "SIGINT"
  else if signo = 3 then "SIGQUIT"
  else if signo = 4 then "SIGILL"
  else if signo = 6 then "SIGABRT"
  else if signo = 8 then "SIGFPE"
  else if signo = 9 then "SIGKILL"
  else if signo = 11 then "SIGSEGV"
  else if signo = 13 then "SIGPIPE"
  else if signo = 14 then "SIGALRM"
  else if signo = 15 then "SIGTERM"
  else if signo = 10 then "SIGUSR1"
  else if signo = 12 then "SIGUSR2"
  else if signo = 17 then "SIGCHLD"
  else if signo = 18 then "SIGCONT"
  else if signo = 19 then "SIGSTOP"
  else if signo = 20 then "SIGTSTP"
  else if signo = 21 then "SIGTTIN"
  else if signo = 22 then "SIGTTOU"
  else if signo = 7 then "SIGBUS"
  else if signo = 29 then "SIGPOLL"
  else if signo = 27 then "SIGPROF"
  else if signo = 31 then "SIGSYS"
  else if signo = 5 then "SIGTRAP"
  else if signo = 23 then "SIGURG"
  else if signo = 26 then "SIGVTALRM"
  else if signo = 24 then "SIGXCPU"
  else if signo = 25 then "SIGXFSZ"
  else if signo = 16 then "SIGSTKFLT"
  else if signo = 30 then "SIGPWR"
  else if signo = 28 then "SIGWINCH"
  else "unknown"

/-- State touched by `Util::handleTerminationSignal`: the process-wide
`TerminationFlag` (a `volatile bool`, initially `false`) together with the
sequence of log lines emitted so far.  One log entry models one
`signalLogPrefix` + three `signalLog` calls of a winning delivery. -/
structure TermState where
  flag : Bool
  log : List String

/-- The text a winning termination delivery logs (the pieces passed to
`Log::signalLog`; the prefix written by `Log::signalLogPrefix` is an
external collaborator and is not modelled). -/
def terminationLogLine (sig : Int) : String :=
  " Termination signal received: " ++ signalName sig ++ "\n"

/-- `TerminationFlag` starts out `false`, with nothing logged. -/
def initTermState : TermState := ⟨false, []⟩

/-- `Util::handleTerminationSignal(signal)`: if `TerminationFlag` is not yet
set, set it and log one line naming the signal; otherwise do nothing. -/
def handleTerminationSignal (sig : Int) (st : TermState) : TermState :=
  if !st.flag then ⟨true, st.log ++ [terminationLogLine sig]⟩
  else st

/-- A sequence of termination-signal deliveries, applied in order. -/
def runTerminationDeliveries (sigs : List Int) (st : TermState) : TermState :=
  sigs.foldl (fun s sig => handleTerminationSignal sig s) st

/-- Externally visible events performed by `Util::handleFatalSignal`, in
program order: log-channel writes, the `sigaction` call restoring the
default disposition, the single `writev` to standard error, the error log
on a failed `writev`, and the final `kill` re-raising the signal. -/
inductive FatalEvent where
  | logMark : FatalEvent
  | logText : String → FatalEvent
  | gdbHint : FatalEvent
  | sleepSecs : Nat → FatalEvent
  | restoreDefault : Int → FatalEvent
  | writevStderr : List String → FatalEvent
  | syserrorLog : String → FatalEvent
  | raiseSignal : Int → FatalEvent
deriving DecidableEq

/-- Is this event the vectored backtrace write to standard error? -/
def FatalEvent.isWritev : FatalEvent → Bool
  | .writevStderr _ => true
  | _ => false

/-- Is this event the `sigaction` call restoring the default disposition? -/
def FatalEvent.isRestore : FatalEvent → Bool
  | .restoreDefault _ => true
  | _ => false

/-- Is this event the final `kill` re-raising the signal? -/
def FatalEvent.isRaise : FatalEvent → Bool
  | .raiseSignal _ => true
  | _ => false

/-- Is this event the `Log::syserror` call on a failed `writev`? -/
def FatalEvent.isSyserror : FatalEvent → Bool
  | .syserrorLog _ => true
  | _ => false

/-- Decimal digit character, as produced by `sprintf %d` / `std::to_string`. -/
def decDigitChar (d : Nat) : Char :=
  match d with
  | 0 => '0' | 1 => '1' | 2 => '2' | 3 => '3' | 4 => '4'
  | 5 => '5' | 6 => '6' | 7 => '7' | 8 => '8' | _ => '9'

/-- Decimal representation of a natural number, most significant digit
first (the digit string `sprintf %d` and `std::to_string` produce). -/
def decRepr (n : Nat) : List Char :=
  if _h : n < 10 then [decDigitChar n]
  else decRepr (n / 10) ++ [decDigitChar (n % 10)]
decreasing_by exact Nat.div_lt_self (by omega) (by omega)

/-- The header the fatal handler formats with
`sprintf(header, "Backtrace %d:\n", getpid())`. -/
def headerString (pid : Nat) : String :=
  "Backtrace " ++ String.mk (decRepr pid) ++ ":\n"

/-- The log calls at the top of `handleFatalSignal`:
`signalLogPrefix(); signalLog(" Fatal signal received: ");
signalLog(signalName(signal)); signalLog("\n")`. -/
def fatalLogEvents (sig : Int) : List FatalEvent :=
  [.logMark, .logText " Fatal signal received: ",
   .logText (signalName sig), .logText "\n"]

/-- The `LOOL_DEBUG` block: emit the precomputed `FatalGdbString` and
`sleep(30)`, only when the environment flag is set. -/
def debugEvents (debugEnv : Bool) : List FatalEvent :=
  if debugEnv then [.gdbHint, .sleepSecs 30] else []

/-- The backtrace dump portion of `handleFatalSignal` (lines 257–284):
`backtrace` captured `numSlots` frames into a 50-slot buffer; if
`numSlots > 0` and `backtrace_symbols` returned a symbol array, one iovec
gathering the header plus, per frame `i`, `symbols[i]` and `"\n"`, is
written to standard error in a single `writev`; a failed `writev` is
logged.  If no frames were captured or symbolization returned NULL,
nothing is emitted. -/
def backtraceDumpEvents (pid : Nat) (numSlots : Nat)
    (symbols : Option (List String)) (writevOk : Bool) : List FatalEvent :=
  if 0 < numSlots then
    match symbols with
    | some syms =>
      FatalEvent.writevStderr
          (headerString pid ::
            (List.range numSlots).flatMap (fun i => [syms.getD i "", "\n"])) ::
        (if writevOk then [] else [.syserrorLog "Failed to dump backtrace to stderr."])
    | none => []
  else []

/-- `Util::handleFatalSignal(signal)` as an event trace, in program order:
log the fatal signal; optionally (under `LOOL_DEBUG`) print the gdb hint
and sleep 30 s; restore the default disposition via `sigaction(signal,
SIG_DFL)`; emit the backtrace block; finally re-raise with
`kill(getpid(), signal)`.  `numSlots` and `symbols` model the results of
`backtrace` and `backtrace_symbols`; `writevOk` the result of `writev`. -/
def handleFatalSignal (debugEnv : Bool) (pid : Nat) (sig : Int)
    (numSlots : Nat) (symbols : Option (List String)) (writevOk : Bool) :
    List FatalEvent :=
  fatalLogEvents sig ++ debugEvents debugEnv ++
    [.restoreDefault sig] ++
    backtraceDumpEvents pid numSlots symbols writevOk ++
    [.raiseSignal sig]

namespace rng

/-- Mutex/generator events of the SecureRandom operations. -/
inductive RngEvent where
  | lockAcquire : RngEvent
  | lockRelease : RngEvent
  | mutateGenerator : RngEvent
deriving DecidableEq

/-- `Util::rng::getNext()`: constructs a `unique_lock` on `_rngMutex`
(acquire), draws `_rng()` (a mutation of the generator state), and releases
the lock when the scope ends. -/
def getNextEvents : List RngEvent :=
  [.lockAcquire, .mutateGenerator, .lockRelease]

/-- `Util::rng::reseed()`: calls `_rng.seed(...)` — a mutation of the
generator state — and nothing else; no lock is taken. -/
def reseedEvents : List RngEvent :=
  [.mutateGenerator]

/-- Checks, tracking the lock depth, that every generator mutation in the
trace happens while the mutex is held. -/
def mutationsLockedGo : List RngEvent → Nat → Bool
  | [], _ => true
  | e :: rest, depth =>
    match e with
    | .lockAcquire => mutationsLockedGo rest (depth + 1)
    | .lockRelease => mutationsLockedGo rest (depth - 1)
    | .mutateGenerator => decide (0 < depth) && mutationsLockedGo rest depth

/-- Every generator mutation in the trace happens under the mutex. -/
def mutationsLocked (tr : List RngEvent) : Bool := mutationsLockedGo tr 0

end rng

/-- Decimal value of a digit string (the reading inverse to `decRepr`,
used to reason about distinctness of identifier strings). -/
def decVal (cs : List Char) : Nat :=
  cs.foldl (fun a c => a * 10 + (c.toNat - 48)) 0

/-- `std::to_string` on a non-negative value: its decimal digit string. -/
def toDecString (n : Nat) : String := String.mk (decRepr n)

/-- The `int` value held by a 32-bit two's-complement word with unsigned
bit pattern `bits` (reduced mod `2^32`): values below `2^31` are
themselves, the rest represent negatives. -/
def toCppInt (bits : Nat) : Int :=
  if bits % 2 ^ 32 < 2 ^ 31 then ((bits % 2 ^ 32 : Nat) : Int)
  else ((bits % 2 ^ 32 : Nat) : Int) - 2 ^ 32

/-- `std::to_string` on an `int`: a minus sign followed by the digits of
the magnitude when negative, plain digits otherwise. -/
def intToDecString (i : Int) : String :=
  if i < 0 then "-" ++ String.mk (decRepr i.natAbs)
  else String.mk (decRepr i.toNat)

/-- `Util::UniqueId()`:
`std::to_string(Poco::Process::id()) + "/" + std::to_string(counter++)`,
with a static `std::atomic_int counter(0)` — a 32-bit signed atomic whose
`++` is a wrapping `fetch_add(1)`.  The static counter is passed explicitly
as its unsigned bit pattern (a `Nat` below `2^32`): the call returns the
identifier string — the counter printed as the `int` the bit pattern
represents — and the wrapped successor bit pattern. -/
def UniqueId (pid : Nat) (counter : Nat) : String × Nat :=
  (toDecString pid ++ "/" ++ intToDecString (toCppInt counter),
   (counter + 1) % 2 ^ 32)

/-- `k` sequential `UniqueId()` calls starting from counter bit pattern
`c`, collecting the returned strings in call order. -/
def runUniqueIds (pid : Nat) : Nat → Nat → List String
  | 0, _ => []
  | k + 1, c => (UniqueId pid c).1 :: runUniqueIds pid k (UniqueId pid c).2

/-- Lowercase hexadecimal digit character (`std::hex` default formatting). -/
def hexDigitChar (d : Nat) : Char :=
  match d with
  | 0 => '0' | 1 => '1' | 2 => '2' | 3 => '3' | 4 => '4'
  | 5 => '5' | 6 => '6' | 7 => '7' | 8 => '8' | 9 => '9'
  | 10 => 'a' | 11 => 'b' | 12 => 'c' | 13 => 'd' | 14 => 'e' | _ => 'f'

/-- Hexadecimal representation of a natural number, most significant digit
first (what `std::ostringstream << std::hex << number` prints). -/
def hexRepr (n : Nat) : List Char :=
  if _h : n < 16 then [hexDigitChar n]
  else hexRepr (n / 16) ++ [hexDigitChar (n % 16)]
decreasing_by exact Nat.div_lt_self (by omega) (by omega)

/-- `Util::encodeId(number, padding)`:
`oss << std::hex << std::setw(padding) << std::setfill('0') << number` —
the lowercase hex digits of `number`, left-padded with `'0'` up to width
`padding` when the digit string is shorter (a non-positive `padding` pads
nothing). -/
def encodeId (number : Nat) (padding : Int) : String :=
  String.mk (List.replicate (padding.toNat - (hexRepr number).length) '0' ++
    hexRepr number)

/-- A hexadecimal digit and its value, as accepted by `istream` hex
extraction (`0`–`9`, `a`–`f`, `A`–`F`). -/
def hexDigitVal? (c : Char) : Option Nat :=
  if '0' ≤ c ∧ c ≤ '9' then some (c.toNat - 48)
  else if 'a' ≤ c ∧ c ≤ 'f' then some (c.toNat - 87)
  else if 'A' ≤ c ∧ c ≤ 'F' then some (c.toNat - 55)
  else none

/-- The `istream` hex-extraction loop: consume hex digits from the front of
the string, accumulating the value; stop at the first non-digit. -/
def parseHexAcc : List Char → Nat → Nat
  | [], acc => acc
  | c :: cs, acc =>
    match hexDigitVal? c with
    | some d => parseHexAcc cs (acc * 16 + d)
    | none => acc

/-- `Util::decodeId(str)`: `ss << std::hex << str; ss >> id` into an
`unsigned`.  The extracted value is the parsed hex prefix; C++ stream
extraction clamps an out-of-range value to `UINT_MAX` (and `id` was
initialised to 0, which the empty parse leaves in place). -/
def decodeId (str : String) : Nat :=
  min (parseHexAcc str.data 0) (2 ^ 32 - 1)

end Util

/-- C1 counterexample: `getFilename` does not always return a string of the
requested length.  With requested length 1 and an entropy stream whose first
byte is zero, the byte buffer streamed as a C string is empty, the Base64
encoding is empty, and the result has length 0, not 1. -/
theorem C1_counterexample :
    ¬ ((Util.rng.getFilename [0] 1).length = 1) := by decide

/-- C1 (amended): for every requested length `L` and every entropy stream,
`getFilename` (= `secureString`) returns a string of AT MOST `L` characters
(not always exactly `L`), and the character `/` never occurs in the result;
likewise the 64-character directory token of `createRandomDir`. -/
theorem C1_filename_le_length_no_slash :
    ∀ (entropy : List Nat) (L : Nat),
      (Util.rng.getFilename entropy L).length ≤ L ∧
      (∀ c ∈ Util.rng.getFilename entropy L, c ≠ '/') ∧
      (Util.createRandomDirName entropy).length ≤ 64 ∧
      (∀ c ∈ Util.createRandomDirName entropy, c ≠ '/') := by
  have hlen : ∀ (e : List Nat) (L : Nat), (Util.rng.getFilename e L).length ≤ L := by
    intro e L
    unfold Util.rng.getFilename
    rw [List.length_take]
    exact Nat.min_le_left _ _
  have hmem : ∀ (e : List Nat) (L : Nat), ∀ c ∈ Util.rng.getFilename e L, c ≠ '/' := by
    intro e L c hc
    unfold Util.rng.getFilename at hc
    have hc' := List.take_subset _ _ hc
    rcases List.mem_map.mp hc' with ⟨a, _, rfl⟩
    by_cases ha : a = '/'
    · simp [ha]
    · simp [ha]
  intro entropy L
  exact ⟨hlen entropy L, hmem entropy L, hlen entropy 64, hmem entropy 64⟩

/-- C7: the signal-name lookup maps every signal of the termination set
(SIGHUP, SIGINT, SIGQUIT, SIGTERM) and of the fatal set (SIGSEGV, SIGBUS,
SIGABRT, SIGILL, SIGFPE) to its canonical uppercase name, and every signal
number outside the lookup table (which covers exactly 1..31 on this
platform) to "unknown". -/
theorem C7_signalName_canonical :
    (Util.signalName 1 = "SIGHUP" ∧ Util.signalName 2 = "SIGINT" ∧
     Util.signalName 3 = "SIGQUIT" ∧ Util.signalName 15 = "SIGTERM" ∧
     Util.signalName 11 = "SIGSEGV" ∧ Util.signalName 7 = "SIGBUS" ∧
     Util.signalName 6 = "SIGABRT" ∧ Util.signalName 4 = "SIGILL" ∧
     Util.signalName 8 = "SIGFPE") ∧
    ∀ n : Int, (n < 1 ∨ 31 < n) → Util.signalName n = "unknown" := by
  constructor
  · refine ⟨?_, ?_, ?_, ?_, ?_, ?_, ?_, ?_, ?_⟩ <;> rfl
  · intro n hn
    rcases hn with hn | hn <;>
      · unfold Util.signalName
        repeat rw [if_neg (by omega)]

/-- C7 witness: instantiating the out-of-table half at the concrete signal
number 99. -/
theorem C7_witness :
    ((99 : Int) < 1 ∨ 31 < (99 : Int)) ∧ Util.signalName 99 = "unknown" :=
  ⟨Or.inr (by decide), C7_signalName_canonical.2 99 (Or.inr (by decide))⟩

/-- C3: the termination handler is idempotent.  A first delivery (flag
still false) sets the flag and emits exactly the one log line naming the
signal; any delivery arriving with the flag already true leaves the state
unchanged — flag stays true and nothing further is logged. -/
theorem C3_termination_idempotent :
    ∀ sig : Int,
      ((Util.handleTerminationSignal sig Util.initTermState).flag = true ∧
       (Util.handleTerminationSignal sig Util.initTermState).log =
         [Util.terminationLogLine sig]) ∧
      ∀ (sig2 : Int) (st : Util.TermState), st.flag = true →
        Util.handleTerminationSignal sig2 st = st := by
  intro sig
  refine ⟨⟨rfl, rfl⟩, ?_⟩
  intro sig2 st h
  simp [Util.handleTerminationSignal, h]

/-- C3 witness: a first SIGTERM delivery sets the flag and logs one line;
a second delivery (here SIGINT) on the resulting state is a no-op. -/
theorem C3_witness :
    (Util.handleTerminationSignal 15 Util.initTermState).flag = true ∧
    (Util.handleTerminationSignal 15 Util.initTermState).log =
      [Util.terminationLogLine 15] ∧
    (⟨true, [Util.terminationLogLine 15]⟩ : Util.TermState).flag = true ∧
    Util.handleTerminationSignal 2 ⟨true, [Util.terminationLogLine 15]⟩ =
      ⟨true, [Util.terminationLogLine 15]⟩ := by
  have h := C3_termination_idempotent 15
  exact ⟨h.1.1, h.1.2, rfl, h.2 2 ⟨true, [Util.terminationLogLine 15]⟩ rfl⟩

/-- C9: the termination flag is monotone.  The termination handler is the
only writer of `TerminationFlag` in this module, and across any sequence of
deliveries the flag, once true, stays true. -/
theorem C9_flag_monotone :
    ∀ (sigs : List Int) (st : Util.TermState), st.flag = true →
      (Util.runTerminationDeliveries sigs st).flag = true := by
  intro sigs
  induction sigs with
  | nil => intro st h; exact h
  | cons s rest ih =>
    intro st h
    have hstep : Util.handleTerminationSignal s st = st := by
      simp [Util.handleTerminationSignal, h]
    show (Util.runTerminationDeliveries rest (Util.handleTerminationSignal s st)).flag = true
    rw [hstep]
    exact ih st h

/-- C9 witness: a flag already true survives a burst of further deliveries. -/
theorem C9_witness :
    (⟨true, []⟩ : Util.TermState).flag = true ∧
    (Util.runTerminationDeliveries [1, 2, 11, 99] ⟨true, []⟩).flag = true :=
  ⟨rfl, C9_flag_monotone [1, 2, 11, 99] ⟨true, []⟩ rfl⟩

/-- Helper: iterating the dump loop indices `0 … numSlots-1` over the
symbol array is the same as walking the symbol list itself. -/
lemma flatMap_range_getD (syms : List String) :
    (List.range syms.length).flatMap (fun i => [syms.getD i "", "\n"]) =
      syms.flatMap (fun s => [s, "\n"]) := by
  induction syms with
  | nil => rfl
  | cons s rest ih =>
    rw [List.length_cons, List.range_succ_eq_map, List.flatMap_cons, List.flatMap_map]
    simp only [List.getD_cons_zero, List.getD_cons_succ, Nat.succ_eq_add_one]
    rw [List.flatMap_cons, ih]

/-- Helper: each frame contributes exactly two iovec fragments (its line and
a newline terminator). -/
lemma length_flatMap_pair (syms : List String) :
    (syms.flatMap (fun s => [s, "\n"])).length = 2 * syms.length := by
  induction syms with
  | nil => rfl
  | cons s rest ih =>
    rw [List.flatMap_cons, List.length_append, ih, List.length_cons]
    simp
    omega

/-- C2: in every execution of the fatal-signal handler, the trace splits as
`pre ++ [restoreDefault] ++ mid ++ [raiseSignal]` where `pre` (all events
before the disposition restore) contains no backtrace write, no restore and
no raise, and `mid` contains no restore and no raise: the default
disposition is restored strictly before the dump and strictly before the
re-raise, and the re-raise is the last step. -/
theorem C2_restore_default_before_dump_and_raise :
    ∀ (debugEnv : Bool) (pid : Nat) (sig : Int) (numSlots : Nat)
      (symbols : Option (List String)) (writevOk : Bool),
      ∃ pre mid,
        Util.handleFatalSignal debugEnv pid sig numSlots symbols writevOk =
          pre ++ Util.FatalEvent.restoreDefault sig ::
            (mid ++ [Util.FatalEvent.raiseSignal sig]) ∧
        (∀ e ∈ pre, e.isWritev = false ∧ e.isRestore = false ∧ e.isRaise = false) ∧
        (∀ e ∈ mid, e.isRestore = false ∧ e.isRaise = false) := by
  intro debugEnv pid sig numSlots symbols writevOk
  refine ⟨Util.fatalLogEvents sig ++ Util.debugEvents debugEnv,
          Util.backtraceDumpEvents pid numSlots symbols writevOk, ?_, ?_, ?_⟩
  · simp [Util.handleFatalSignal, List.append_assoc, List.singleton_append]
  · intro e he
    rcases List.mem_append.mp he with h | h
    · simp [Util.fatalLogEvents] at h
      rcases h with h | h | h | h <;> subst h <;> exact ⟨rfl, rfl, rfl⟩
    · cases debugEnv with
      | false => simp [Util.debugEvents] at h
      | true =>
        simp [Util.debugEvents] at h
        rcases h with h | h <;> subst h <;> exact ⟨rfl, rfl, rfl⟩
  · intro e he
    unfold Util.backtraceDumpEvents at he
    by_cases hn : 0 < numSlots
    · rw [if_pos hn] at he
      cases symbols with
      | none => simp at he
      | some syms =>
        cases writevOk with
        | true =>
          simp at he
          subst he
          exact ⟨rfl, rfl⟩
        | false =>
          simp at he
          rcases he with he | he <;> subst he <;> exact ⟨rfl, rfl⟩
    · rw [if_neg hn] at he
      simp at he

/-- C4: when capture yields `numSlots > 0` frames (at most the 50 buffer
slots) and symbolization succeeds, the handler performs exactly one
`writev` to standard error, whose iovec is the header `"Backtrace <pid>:\n"`
followed, for each captured frame, by its symbol line and a `"\n"`
terminator — `2 * numSlots + 1` fragments in one vectored write. -/
theorem C4_single_vectored_backtrace_write :
    ∀ (debugEnv : Bool) (pid : Nat) (sig : Int) (numSlots : Nat)
      (syms : List String) (writevOk : Bool),
      0 < numSlots → syms.length = numSlots → numSlots ≤ 50 →
      (Util.handleFatalSignal debugEnv pid sig numSlots (some syms) writevOk).filter
          (fun e => e.isWritev) =
        [Util.FatalEvent.writevStderr
          (Util.headerString pid :: syms.flatMap (fun s => [s, "\n"]))] ∧
      (Util.headerString pid :: syms.flatMap (fun s => [s, "\n"])).length =
        2 * numSlots + 1 := by
  intro debugEnv pid sig numSlots syms writevOk h1 h2 h3
  constructor
  · have hd : Util.backtraceDumpEvents pid numSlots (some syms) writevOk =
        Util.FatalEvent.writevStderr
          (Util.headerString pid ::
            (List.range numSlots).flatMap (fun i => [syms.getD i "", "\n"])) ::
          (if writevOk then []
           else [Util.FatalEvent.syserrorLog "Failed to dump backtrace to stderr."]) := by
      unfold Util.backtraceDumpEvents
      rw [if_pos h1]
    unfold Util.handleFatalSignal
    rw [hd, ← h2, flatMap_range_getD]
    cases debugEnv <;> cases writevOk <;>
      simp [List.filter_append, Util.fatalLogEvents, Util.debugEvents,
            Util.FatalEvent.isWritev, List.filter]
  · rw [List.length_cons, length_flatMap_pair, h2]

/-- C4 witness: a concrete two-frame dump. -/
theorem C4_witness :
    0 < 2 ∧ (["frame0", "frame1"] : List String).length = 2 ∧ 2 ≤ 50 ∧
    ((Util.handleFatalSignal false 1 11 2 (some ["frame0", "frame1"]) true).filter
        (fun e => e.isWritev) =
      [Util.FatalEvent.writevStderr
        (Util.headerString 1 ::
          (["frame0", "frame1"] : List String).flatMap (fun s => [s, "\n"]))] ∧
     (Util.headerString 1 ::
        (["frame0", "frame1"] : List String).flatMap (fun s => [s, "\n"])).length =
       2 * 2 + 1) :=
  ⟨by decide, by decide, by decide,
   C4_single_vectored_backtrace_write false 1 11 2 ["frame0", "frame1"] true
     (by decide) (by decide) (by decide)⟩

/-- C5: the dump degrades silently — if capture yields zero frames, or
symbolization returns no symbols, the handler writes nothing to standard
error (no `writev`, no write-failure log) and still reaches the final
re-raise as its last step. -/
theorem C5_dump_silent_on_failure :
    ∀ (debugEnv : Bool) (pid : Nat) (sig : Int) (numSlots : Nat)
      (symbols : Option (List String)) (writevOk : Bool),
      numSlots = 0 ∨ symbols = none →
      (Util.handleFatalSignal debugEnv pid sig numSlots symbols writevOk).filter
          (fun e => e.isWritev) = [] ∧
      (Util.handleFatalSignal debugEnv pid sig numSlots symbols writevOk).filter
          (fun e => e.isSyserror) = [] ∧
      (Util.handleFatalSignal debugEnv pid sig numSlots symbols writevOk).getLast? =
        some (Util.FatalEvent.raiseSignal sig) := by
  intro debugEnv pid sig numSlots symbols writevOk h
  have hdump : Util.backtraceDumpEvents pid numSlots symbols writevOk = [] := by
    unfold Util.backtraceDumpEvents
    rcases h with h | h
    · rw [h]
      rfl
    · subst h
      by_cases hn : 0 < numSlots
      · rw [if_pos hn]
      · rw [if_neg hn]
  refine ⟨?_, ?_, ?_⟩
  · unfold Util.handleFatalSignal
    rw [hdump]
    cases debugEnv <;> rfl
  · unfold Util.handleFatalSignal
    rw [hdump]
    cases debugEnv <;> rfl
  · unfold Util.handleFatalSignal
    rw [hdump]
    cases debugEnv <;> rfl

/-- C5 witness: zero captured frames with no symbol array. -/
theorem C5_witness :
    ((0 : Nat) = 0 ∨ (none : Option (List String)) = none) ∧
    ((Util.handleFatalSignal false 1 11 0 none true).filter
        (fun e => e.isWritev) = [] ∧
     (Util.handleFatalSignal false 1 11 0 none true).filter
        (fun e => e.isSyserror) = [] ∧
     (Util.handleFatalSignal false 1 11 0 none true).getLast? =
       some (Util.FatalEvent.raiseSignal 11)) :=
  ⟨Or.inl rfl, C5_dump_silent_on_failure false 1 11 0 none true (Or.inl rfl)⟩

/-- C6 counterexample: it is not the case that both operations mutate the
generator only while holding `_rngMutex`: `reseed()` calls `_rng.seed(...)`
without acquiring the mutex. -/
theorem C6_counterexample :
    ¬ (Util.rng.mutationsLocked Util.rng.getNextEvents = true ∧
       Util.rng.mutationsLocked Util.rng.reseedEvents = true) := by decide

/-- C6 (amended): a `getNext` draw mutates the generator only while holding
`_rngMutex`, but `reseed` mutates the generator with the mutex not held. -/
theorem C6_getNext_locked_reseed_unlocked :
    Util.rng.mutationsLocked Util.rng.getNextEvents = true ∧
    Util.rng.mutationsLocked Util.rng.reseedEvents = false := by decide

/-- Helper: a decimal digit character decodes back to its value. -/
lemma decDigitChar_toNat (d : Nat) (h : d < 10) :
    (Util.decDigitChar d).toNat - 48 = d := by
  interval_cases d <;> decide

/-- Helper: folding the decimal decoder over `decRepr n` starting from any
accumulator shifts the accumulator past the digits and adds `n`. -/
lemma decRepr_foldl (n : Nat) :
    ∀ acc, (Util.decRepr n).foldl (fun a c => a * 10 + (c.toNat - 48)) acc =
      acc * 10 ^ (Util.decRepr n).length + n := by
  induction n using Nat.strong_induction_on with
  | _ n ih =>
    intro acc
    by_cases h : n < 10
    · unfold Util.decRepr
      rw [dif_pos h]
      simp only [List.foldl_cons, List.foldl_nil, List.length_cons, List.length_nil,
        decDigitChar_toNat n h, zero_add, pow_one]
    · unfold Util.decRepr
      rw [dif_neg h]
      rw [List.foldl_append]
      rw [ih (n / 10) (Nat.div_lt_self (by omega) (by omega)) acc]
      have h10 : n % 10 < 10 := Nat.mod_lt _ (by omega)
      simp only [List.foldl_cons, List.foldl_nil, decDigitChar_toNat _ h10]
      rw [List.length_append, List.length_cons, List.length_nil]
      have hdm : 10 * (n / 10) + n % 10 = n := Nat.div_add_mod n 10
      calc (acc * 10 ^ (Util.decRepr (n / 10)).length + n / 10) * 10 + n % 10
          = acc * (10 ^ (Util.decRepr (n / 10)).length * 10) +
              (10 * (n / 10) + n % 10) := by ring
        _ = acc * 10 ^ ((Util.decRepr (n / 10)).length + (0 + 1)) + n := by
              rw [hdm, Nat.zero_add, pow_succ]

/-- Helper: the decimal decoder inverts `decRepr`. -/
lemma decVal_decRepr (n : Nat) : Util.decVal (Util.decRepr n) = n := by
  unfold Util.decVal
  rw [decRepr_foldl n 0]
  simp

/-- Helper: `decRepr` (hence `std::to_string`) is injective. -/
lemma decRepr_injective : Function.Injective Util.decRepr := by
  intro a b h
  have ha := decVal_decRepr a
  rw [h, decVal_decRepr b] at ha
  exact ha.symm

/-- Helper: a decimal digit character is never the minus sign. -/
lemma decDigitChar_ne_dash (d : Nat) (h : d < 10) : Util.decDigitChar d ≠ '-' := by
  interval_cases d <;> decide

/-- Helper: `decRepr` always starts with a digit character. -/
lemma decRepr_head (n : Nat) :
    ∃ d rest, d < 10 ∧ Util.decRepr n = Util.decDigitChar d :: rest := by
  induction n using Nat.strong_induction_on with
  | _ n ih =>
    by_cases h : n < 10
    · refine ⟨n, [], h, ?_⟩
      unfold Util.decRepr
      rw [dif_pos h]
    · rcases ih (n / 10) (Nat.div_lt_self (by omega) (by omega)) with ⟨d, rest, hd, heq⟩
      refine ⟨d, rest ++ [Util.decDigitChar (n % 10)], hd, ?_⟩
      unfold Util.decRepr
      rw [dif_neg h, heq]
      rfl

/-- Helper: `std::to_string` on `int` values is injective — negatives are
marked by the minus sign, which no digit string starts with. -/
lemma intToDecString_injective : Function.Injective Util.intToDecString := by
  intro i j h
  unfold Util.intToDecString at h
  have hdash : ("-" : String).data = ['-'] := rfl
  have hmk : ∀ l : List Char, (String.mk l).data = l := fun l => rfl
  by_cases hi : i < 0 <;> by_cases hj : j < 0
  · rw [if_pos hi, if_pos hj] at h
    have hd := congrArg String.data h
    simp only [String.data_append, hdash, hmk, List.cons_append, List.nil_append] at hd
    have h2 := (List.cons.inj hd).2
    have h3 := decRepr_injective h2
    omega
  · rw [if_pos hi, if_neg hj] at h
    exfalso
    have hd := congrArg String.data h
    simp only [String.data_append, hdash, hmk, List.cons_append, List.nil_append] at hd
    rcases decRepr_head j.toNat with ⟨d, rest, hdlt, heq⟩
    rw [heq] at hd
    exact decDigitChar_ne_dash d hdlt ((List.cons.inj hd).1).symm
  · rw [if_neg hi, if_pos hj] at h
    exfalso
    have hd := congrArg String.data h
    simp only [String.data_append, hdash, hmk, List.cons_append, List.nil_append] at hd
    rcases decRepr_head i.toNat with ⟨d, rest, hdlt, heq⟩
    rw [heq] at hd
    exact decDigitChar_ne_dash d hdlt ((List.cons.inj hd).1)
  · rw [if_neg hi, if_neg hj] at h
    have hd : Util.decRepr i.toNat = Util.decRepr j.toNat := congrArg String.data h
    have h3 := decRepr_injective hd
    omega

/-- Helper: on bit patterns below `2^32`, the two's-complement reading is
injective. -/
lemma toCppInt_inj (a b : Nat) (ha : a < 2 ^ 32) (hb : b < 2 ^ 32)
    (h : Util.toCppInt a = Util.toCppInt b) : a = b := by
  unfold Util.toCppInt at h
  rw [Nat.mod_eq_of_lt ha, Nat.mod_eq_of_lt hb] at h
  split_ifs at h <;> omega

/-- Helper: below `2^31` the two's-complement reading is the value itself. -/
lemma toCppInt_of_lt_2pow31 (i : Nat) (h : i < 2 ^ 31) :
    Util.toCppInt i = (i : Int) := by
  unfold Util.toCppInt
  rw [Nat.mod_eq_of_lt (by omega), if_pos h]

/-- Helper: `std::to_string` of a non-negative `int` is the plain digit
string of its value. -/
lemma intToDecString_natCast (i : Nat) :
    Util.intToDecString (i : Int) = Util.toDecString i := by
  unfold Util.intToDecString Util.toDecString
  rw [if_neg (by omega), Int.toNat_natCast]

/-- Helper: `k` sequential `UniqueId` calls from counter bit pattern `c`
return the identifier strings of the 32-bit counter values
`c, c+1, …, c+k-1` (each reduced mod `2^32` and read as an `int`). -/
lemma runUniqueIds_eq_map (pid : Nat) :
    ∀ (k c : Nat), Util.runUniqueIds pid k c =
      (List.range k).map
        (fun i => Util.toDecString pid ++ "/" ++
          Util.intToDecString (Util.toCppInt (c + i))) := by
  intro k
  induction k with
  | zero => intro c; rfl
  | succ k ih =>
    intro c
    show (Util.toDecString pid ++ "/" ++ Util.intToDecString (Util.toCppInt c)) ::
        Util.runUniqueIds pid k ((c + 1) % 2 ^ 32) = _
    rw [List.range_succ_eq_map, List.map_cons, List.map_map, ih ((c + 1) % 2 ^ 32)]
    have hfun :
        (fun i => Util.toDecString pid ++ "/" ++
            Util.intToDecString (Util.toCppInt ((c + 1) % 2 ^ 32 + i))) =
          ((fun i => Util.toDecString pid ++ "/" ++
            Util.intToDecString (Util.toCppInt (c + i))) ∘ Nat.succ) := by
      funext i
      have harg : Util.toCppInt ((c + 1) % 2 ^ 32 + i) =
          Util.toCppInt (c + Nat.succ i) := by
        unfold Util.toCppInt
        rw [Nat.mod_add_mod]
        have h2 : c + 1 + i = c + Nat.succ i := by omega
        rw [h2]
      show Util.toDecString pid ++ "/" ++
          Util.intToDecString (Util.toCppInt ((c + 1) % 2 ^ 32 + i)) =
        Util.toDecString pid ++ "/" ++
          Util.intToDecString (Util.toCppInt (c + Nat.succ i))
      rw [harg]
    rw [hfun]
    rfl

/-- C8 counterexample: the static counter is a 32-bit `std::atomic_int`, so
its increment wraps; after `2^32` calls the identifier strings repeat — the
first and the `2^32`-th string both read `"7/0"`, so `2^32 + 1` sequential
calls do not return pairwise-distinct strings. -/
theorem C8_counterexample :
    ¬ (Util.runUniqueIds 7 (2 ^ 32 + 1) 0).Nodup := by
  intro hnd
  rw [runUniqueIds_eq_map 7 (2 ^ 32 + 1) 0] at hnd
  have h0 : (0 : Nat) ∈ List.range (2 ^ 32 + 1) := List.mem_range.mpr (by norm_num)
  have h1 : (2 ^ 32 : Nat) ∈ List.range (2 ^ 32 + 1) := List.mem_range.mpr (by norm_num)
  have heq : Util.toCppInt (0 + 0) = Util.toCppInt (0 + 2 ^ 32) := by
    unfold Util.toCppInt
    norm_num
  have h01 := List.inj_on_of_nodup_map hnd h0 h1
    (by
      show Util.toDecString 7 ++ "/" ++ Util.intToDecString (Util.toCppInt (0 + 0)) =
        Util.toDecString 7 ++ "/" ++ Util.intToDecString (Util.toCppInt (0 + 2 ^ 32))
      rw [heq])
  norm_num at h01

/-- C8 (amended): for every `K ≤ 2^32`, `K` sequential `UniqueId()` calls
from the process-start counter 0 return `K` pairwise-distinct strings, all
of the form `"<processId>/<to_string(int32(i))>"`; for the first `2^31`
calls (before the signed 32-bit counter wraps to negative values) the `i`-th
string is exactly `"<processId>/<i>"` — shared process-id prefix, counter
suffix 0, 1, 2, … strictly increasing.  Beyond `2^31` calls the suffix goes
negative, and beyond `2^32` calls strings repeat. -/
theorem C8_uniqueId_wrapping_distinct :
    ∀ (pid k : Nat), k ≤ 2 ^ 32 →
      (Util.runUniqueIds pid k 0).length = k ∧
      (Util.runUniqueIds pid k 0).Nodup ∧
      (∀ i, i < k → (Util.runUniqueIds pid k 0)[i]? =
        some (Util.toDecString pid ++ "/" ++
          Util.intToDecString (Util.toCppInt i))) ∧
      (∀ i, i < k → i < 2 ^ 31 → (Util.runUniqueIds pid k 0)[i]? =
        some (Util.toDecString pid ++ "/" ++ Util.toDecString i)) := by
  intro pid k hk
  rw [runUniqueIds_eq_map pid k 0]
  simp only [Nat.zero_add]
  refine ⟨by simp, ?_, ?_, ?_⟩
  · apply List.Nodup.map_on ?_ (List.nodup_range k)
    intro a ha b hb hab
    have ha2 := List.mem_range.mp ha
    have hb2 := List.mem_range.mp hb
    have hd := congrArg String.data hab
    simp only [String.data_append, List.append_assoc] at hd
    have h1 := List.append_cancel_left hd
    have h2 := List.append_cancel_left h1
    have h3 : Util.intToDecString (Util.toCppInt a) =
        Util.intToDecString (Util.toCppInt b) := String.ext h2
    exact toCppInt_inj a b (by omega) (by omega) (intToDecString_injective h3)
  · intro i hi
    rw [List.getElem?_map, List.getElem?_range hi]
    rfl
  · intro i hi hi31
    rw [List.getElem?_map, List.getElem?_range hi]
    have hsfx : Util.intToDecString (Util.toCppInt i) = Util.toDecString i := by
      rw [toCppInt_of_lt_2pow31 i hi31, intToDecString_natCast]
    rw [← hsfx]
    rfl

/-- C8 witness: with pid 7 and two calls, the second returned identifier is
`"7/1"`. -/
theorem C8_witness :
    2 ≤ 2 ^ 32 ∧ 1 < 2 ∧ 1 < 2 ^ 31 ∧
    (Util.runUniqueIds 7 2 0)[1]? =
      some (Util.toDecString 7 ++ "/" ++ Util.toDecString 1) :=
  ⟨by norm_num, by norm_num, by norm_num,
   (C8_uniqueId_wrapping_distinct 7 2 (by norm_num)).2.2.2 1 (by norm_num)
     (by norm_num)⟩

/-- Helper: a hex digit character (value below 16) decodes to its value. -/
lemma hexDigitVal_hexDigitChar (d : Nat) (h : d < 16) :
    Util.hexDigitVal? (Util.hexDigitChar d) = some d := by
  interval_cases d <;> decide

/-- Helper: hex parsing distributes over append while digits last. -/
lemma parseHexAcc_append (xs ys : List Char)
    (hxs : ∀ c ∈ xs, (Util.hexDigitVal? c).isSome) :
    ∀ acc, Util.parseHexAcc (xs ++ ys) acc =
      Util.parseHexAcc ys (Util.parseHexAcc xs acc) := by
  induction xs with
  | nil => intro acc; rfl
  | cons c cs ih =>
    intro acc
    have hc : (Util.hexDigitVal? c).isSome := hxs c (List.mem_cons_self c cs)
    rcases Option.isSome_iff_exists.mp hc with ⟨d, hd⟩
    rw [List.cons_append]
    simp only [Util.parseHexAcc, hd]
    exact ih (fun x hx => hxs x (List.mem_cons_of_mem c hx)) (acc * 16 + d)

/-- Helper: every character `hexRepr` produces is a hex digit. -/
lemma mem_hexRepr_isSome (n : Nat) :
    ∀ c ∈ Util.hexRepr n, (Util.hexDigitVal? c).isSome := by
  induction n using Nat.strong_induction_on with
  | _ n ih =>
    intro c hc
    by_cases h : n < 16
    · unfold Util.hexRepr at hc
      rw [dif_pos h] at hc
      simp only [List.mem_singleton] at hc
      subst hc
      rw [hexDigitVal_hexDigitChar n h]
      rfl
    · unfold Util.hexRepr at hc
      rw [dif_neg h] at hc
      rcases List.mem_append.mp hc with h1 | h1
      · exact ih (n / 16) (Nat.div_lt_self (by omega) (by omega)) c h1
      · simp only [List.mem_singleton] at h1
        subst h1
        rw [hexDigitVal_hexDigitChar _ (Nat.mod_lt _ (by omega))]
        rfl

/-- Helper: parsing the hex representation from any accumulator shifts the
accumulator past the digits and adds `n`. -/
lemma parseHexAcc_hexRepr (n : Nat) :
    ∀ acc, Util.parseHexAcc (Util.hexRepr n) acc =
      acc * 16 ^ (Util.hexRepr n).length + n := by
  induction n using Nat.strong_induction_on with
  | _ n ih =>
    intro acc
    by_cases h : n < 16
    · unfold Util.hexRepr
      rw [dif_pos h]
      simp only [Util.parseHexAcc, hexDigitVal_hexDigitChar n h,
        List.length_cons, List.length_nil, zero_add, pow_one]
    · unfold Util.hexRepr
      rw [dif_neg h]
      rw [parseHexAcc_append _ _ (mem_hexRepr_isSome (n / 16)) acc]
      rw [ih (n / 16) (Nat.div_lt_self (by omega) (by omega)) acc]
      have h16 : n % 16 < 16 := Nat.mod_lt _ (by omega)
      simp only [Util.parseHexAcc, hexDigitVal_hexDigitChar _ h16]
      rw [List.length_append, List.length_cons, List.length_nil]
      have hdm : 16 * (n / 16) + n % 16 = n := Nat.div_add_mod n 16
      calc (acc * 16 ^ (Util.hexRepr (n / 16)).length + n / 16) * 16 + n % 16
          = acc * (16 ^ (Util.hexRepr (n / 16)).length * 16) +
              (16 * (n / 16) + n % 16) := by ring
        _ = acc * 16 ^ ((Util.hexRepr (n / 16)).length + (0 + 1)) + n := by
              rw [hdm, Nat.zero_add, pow_succ]

/-- C10: `encodeId`/`decodeId` round-trip — for every value an `unsigned`
can hold and every padding width, parsing the zero-padded hex encoding
returns the original number. -/
theorem C10_encodeId_decodeId_roundtrip :
    ∀ (number : Nat) (padding : Int), number < 2 ^ 32 →
      Util.decodeId (Util.encodeId number padding) = number := by
  intro n p h
  unfold Util.decodeId Util.encodeId
  have hzeros : ∀ c ∈ List.replicate (p.toNat - (Util.hexRepr n).length) '0',
      (Util.hexDigitVal? c).isSome := by
    intro c hc
    rcases List.mem_replicate.mp hc with ⟨_, rfl⟩
    decide
  show min (Util.parseHexAcc
      (List.replicate (p.toNat - (Util.hexRepr n).length) '0' ++ Util.hexRepr n) 0)
      (2 ^ 32 - 1) = n
  rw [parseHexAcc_append _ _ hzeros 0]
  have hzv : ∀ z : Nat, Util.parseHexAcc (List.replicate z '0') 0 = 0 := by
    intro z
    induction z with
    | zero => rfl
    | succ z ih =>
      rw [List.replicate_succ]
      show Util.parseHexAcc (List.replicate z '0') (0 * 16 + 0) = 0
      exact ih
  rw [hzv _, parseHexAcc_hexRepr n 0]
  simp only [Nat.zero_mul, Nat.zero_add]
  exact Nat.min_eq_left (by omega)

/-- C10 witness: `decodeId (encodeId 255 4) = 255` (encoding `"00ff"`). -/
theorem C10_witness :
    255 < 2 ^ 32 ∧ Util.decodeId (Util.encodeId 255 4) = 255 :=
  ⟨by norm_num, C10_encodeId_decodeId_roundtrip 255 4 (by norm_num)⟩
